import Mathlib

/-!
Verification of the HumanEval evaluation-harness repository.

The definitions below are a shallow embedding of the Python sources:

* `run_humaneval_openai.py` and `humaneval_coverage_summary.py` share,
  verbatim, the assert-instrumentation machinery (`_AssertRecorder`,
  `_CheckOnly`, `_instrument_test_code`, `run_check_and_count_asserts`)
  and the batch runner's counter updates in `main`; they are embedded once.
* `convergence.py` provides `parse_coverage_xml` and
  `collect_prior_tests_text`.
* `humaneval_coverage_summary.py` and `generate_summary.py` each provide a
  `summarize_pytest_cov_style` and a `compress_line_ranges`; the two
  `compress_line_ranges` bodies are textually identical and are embedded
  once, while the two `summarize_pytest_cov_style` bodies differ and are
  embedded separately (namespaces `HCS` and `GS`).

Machine integers are modelled as `Int`/`Nat` (Python integers are
unbounded), floats as `ℚ` (all arithmetic in scope is ratios scaled by
100), Python `dict.get` as `Option` with `Option.getD`, and fallible
parsing as `Option`.
-/

namespace HumanEvalHarness

/-! ### Python AST fragment

Model of the `ast` nodes handled by `_AssertRecorder` and `_CheckOnly`.
Test sources in scope are a module-level sequence of statements; function
bodies are flat sequences of simple statements (assert / expression
statement / other), which covers every HumanEval `check` routine (their
bodies are straight-line assert lists).  `ast.Constant` values carry
`None`, booleans, integers or strings. -/

inductive Const : Type where
  | pyNone : Const
  | bool (b : Bool) : Const
  | int (n : Int) : Const
  | str (s : String) : Const
  deriving DecidableEq, Repr

inductive Expr : Type where
  | name (id : String) : Expr
  | const (c : Const) : Expr
  | call (func : Expr) (args : List Expr) : Expr
  | binop (op : String) (lhs rhs : Expr) : Expr

/-- Simple statement inside a function body (or at module level). -/
inductive BStmt : Type where
  | assertS (test : Expr) (msg : Option Expr) (lineno : Int) : BStmt
  | exprS (e : Expr) : BStmt
  | pass : BStmt

/-- Top-level statement of a test module: a function definition
(`ast.FunctionDef`, with parameter names and flat body) or a simple
statement. -/
inductive TopStmt : Type where
  | funcdef (name : String) (params : List String) (body : List BStmt) : TopStmt
  | simple (s : BStmt) : TopStmt

/-- Embedding of `_AssertRecorder.visit_Assert`: an assert statement
becomes the expression statement
`__rec(test, msg-or-None, lineno)`, forwarding the original (unevaluated)
test expression, the original message expression or an `ast.Constant(None)`
placeholder, and the original source line number.  Every other statement is
left unchanged. -/
def visit_Assert : BStmt → BStmt
  | .assertS test msg lineno =>
      .exprS (.call (.name ("__rec"))
        [test, msg.getD (.const .pyNone), .const (.int lineno)])
  | s => s

/-- Embedding of `_CheckOnly.visit_FunctionDef`: a function definition is
instrumented exactly when its name is `check` and one of its parameters is
named `candidate`; non-matching definitions and module-level statements are
returned unchanged (the transformer does not descend into them). -/
def visit_FunctionDef : TopStmt → TopStmt
  | .funcdef n p b =>
      if n = "check" ∧ "candidate" ∈ p then
        .funcdef n p (b.map visit_Assert)
      else
        .funcdef n p b
  | s => s

/-- Embedding of `_instrument_test_code`: visit every top-level statement
of the parsed module. -/
def instrument_test_code (m : List TopStmt) : List TopStmt :=
  m.map visit_FunctionDef

/-- Predicate matching the `is_check` test of `_CheckOnly`. -/
def isCheckDef : TopStmt → Bool
  | .funcdef n p _ => decide (n = "check" ∧ "candidate" ∈ p)
  | _ => false

/-- Triple view of an assert statement, `none` on any other statement. -/
def assertTriple : BStmt → Option (Expr × Option Expr × Int)
  | .assertS t m ln => some (t, m, ln)
  | _ => none

/-- Direct assert statements of a body, in source order, as
(test, message, line-number) triples. -/
def assertsOf (b : List BStmt) : List (Expr × Option Expr × Int) :=
  b.filterMap assertTriple

/-- Number of assert statements in a body. -/
def assertCount (b : List BStmt) : Nat :=
  (b.filterMap assertTriple).length

/-- Argument-triple view of a recording-hook call statement — an
expression statement of shape `__rec(test, msg, Constant(lineno))` —
`none` on any other statement. -/
def hookOf : BStmt → Option (Expr × Expr × Int)
  | .exprS (.call (.name id) [t, m, .const (.int ln)]) =>
      if id = "__rec" then some (t, m, ln) else none
  | _ => none

/-- Recording-hook call statements of a body, in source order, as their
(test, message, line-number) argument triples. -/
def hookCalls (b : List BStmt) : List (Expr × Expr × Int) :=
  b.filterMap hookOf

/-! ### Instrumented test executor

Model of `run_check_and_count_asserts` (identical in
`run_humaneval_openai.py` and `humaneval_coverage_summary.py`).  Running
the rewritten `check(candidate)` is a straight-line sequence of recording
hook calls; each call either appends one record `(lineno, bool(value),
msg)` — the hook itself never raises — or the evaluation of its argument
expressions raises, which aborts `check`; the surrounding handler then
appends one synthetic failing record and swallows the error. -/

/-- One recorded assertion outcome: `(lineno, ok, msg)`.  The hook stores
`ok = bool(test_value)`, so `ok` is always a Python `bool`. -/
structure Record : Type where
  lineno : Int
  ok : Bool
  msg : Option String
  deriving DecidableEq, Repr

/-- One step of the rewritten `check` body: a hook call whose argument
evaluation yields a truth value and message, or one whose evaluation
raises with the given error text. -/
inductive Step : Type where
  | eval (lineno : Int) (value : Bool) (msg : Option String) : Step
  | raiseE (err : String) : Step
  deriving DecidableEq, Repr

/-- Records accumulated by executing the steps of `check(candidate)`: each
successful hook call appends one record; the first raising step aborts the
run, and the `except` handler appends `(0, False, "Runtime error: ...")`. -/
def runSteps : List Step → List Record
  | [] => []
  | .eval ln v m :: rest => ⟨ln, v, m⟩ :: runSteps rest
  | .raiseE e :: _ => [⟨0, false, some ("Runtime error: " ++ e)⟩]

/-- Number of non-raising hook-call steps. -/
def countEvalSteps (l : List Step) : Nat :=
  (l.filter fun s =>
    match s with
    | .eval _ _ _ => true
    | _ => false).length

/-- Return value of `run_check_and_count_asserts`:
`(total, passed, failed, failures_detail)`. -/
structure RunResult : Type where
  total : Nat
  passed : Nat
  failed : Nat
  failures_detail : List Record
  deriving DecidableEq, Repr

/-- Outcome of compiling and executing the instrumented test module:
compilation/execution raised (`importError`), the executed namespace has
no `check` function (`noCheck`), or `check` is present and running
`check(candidate)` performs the given steps. -/
inductive ModuleExec : Type where
  | importError (err : String) : ModuleExec
  | noCheck : ModuleExec
  | withCheck (steps : List Step) : ModuleExec

/-- Embedding of `run_check_and_count_asserts`.  In the `withCheck` branch
`total` is the number of records whose outcome is a Python `bool`; the
hook coerces with `bool(...)` and the synthetic runtime-error record
stores the literal `False`, so every record counts.  `passed` counts
truthy outcomes, `failed` counts outcomes that are `False`. -/
def run_check_and_count_asserts : ModuleExec → RunResult
  | .importError e =>
      ⟨0, 0, 1, [⟨0, false, some ("Test import error: " ++ e)⟩]⟩
  | .noCheck =>
      ⟨0, 0, 1, [⟨0, false, some ("Missing check(candidate) in test")⟩]⟩
  | .withCheck steps =>
      let records := runSteps steps
      ⟨records.length,
       (records.filter fun r => r.ok).length,
       (records.filter fun r => r.ok = false).length,
       records.filter fun r => r.ok = false⟩

/-- Semantic bridge from the rewritten `check` body to its execution
steps: the body's hook calls run in source order; evaluating the
forwarded test expression under the candidate is an oracle
`ev : Expr → Option Bool` (`none` means the evaluation raises), and the
evaluated-and-stringified message argument is an oracle
`mv : Expr → Option String`. -/
def stepsOf (b : List BStmt) (ev : Expr → Option Bool)
    (mv : Expr → Option String) : List Step :=
  (assertsOf b).map fun a =>
    match ev a.1 with
    | some v => .eval a.2.2 v (mv (a.2.1.getD (.const .pyNone)))
    | none => .raiseE ("assertion evaluation raised")

/-! ### Batch runner counters

Model of the per-file counter updates in `main` (the loop bodies of
`run_humaneval_openai.py` and `humaneval_coverage_summary.py` update
`grand_total`, `grand_pass`, `grand_fail` identically).  Each discovered
solution file produces one of five outcomes; `mainStep` is the effect of
one loop iteration on the counters. -/

structure Counters : Type where
  grand_total : Nat
  grand_pass : Nat
  grand_fail : Nat
  deriving DecidableEq, Repr

/-- Outcome of handling one discovered solution file: the filename has no
parsable numeric id, the id is absent from the dataset, loading the module
raised, the loaded module lacks the entry-point attribute, or the tests
ran with the given result. -/
inductive FileOutcome : Type where
  | badFilename : FileOutcome
  | notInDataset : FileOutcome
  | loadError (err : String) : FileOutcome
  | missingEntry : FileOutcome
  | ran (r : RunResult) : FileOutcome
  deriving DecidableEq, Repr

/-- One iteration of the `main` loop: bad filenames and unknown dataset
ids `continue` without touching any counter; a module load error and a
missing entry point each print a diagnostic and do `grand_fail += 1`; a
run increments `grand_total` and then `grand_pass` or `grand_fail`
according to `status = "PASS" if failed == 0 and total > 0 else "FAIL"`. -/
def mainStep (g : Counters) : FileOutcome → Counters
  | .badFilename => g
  | .notInDataset => g
  | .loadError _ => { g with grand_fail := g.grand_fail + 1 }
  | .missingEntry => { g with grand_fail := g.grand_fail + 1 }
  | .ran r =>
      ⟨g.grand_total + 1,
       g.grand_pass + (if r.failed = 0 ∧ 0 < r.total then 1 else 0),
       g.grand_fail + (if r.failed = 0 ∧ 0 < r.total then 0 else 1)⟩

/-- Counter state after the whole `main` loop over the discovered files'
outcomes, starting from `grand_total = grand_pass = grand_fail = 0`. -/
def main_counters (outcomes : List FileOutcome) : Counters :=
  outcomes.foldl mainStep ⟨0, 0, 0⟩

end HumanEvalHarness

namespace Convergence

/-! ### Coverage XML reader (`convergence.py`)

`parse_coverage_xml` reads the root element's attributes.  An attribute
lookup `root.attrib.get(name)` may find no value, or a value that
`float(...)` rejects, or a numeric value: modelled as
`Option (Option ℚ)` (outer: attribute present, inner: parses as a
float).  Field names replace the hyphens of the XML attribute names
(`line-rate` and so on) with underscores. -/

structure XmlAttrs : Type where
  line_rate : Option (Option ℚ)
  branch_rate : Option (Option ℚ)
  lines_valid : Option (Option ℚ)
  lines_covered : Option (Option ℚ)
  branches_valid : Option (Option ℚ)
  branches_covered : Option (Option ℚ)
  deriving DecidableEq, Repr

/-- Input of `parse_coverage_xml`: the report file is missing or
zero-byte, or it parses to a root element with the given attributes. -/
inductive XmlFile : Type where
  | missingOrEmpty : XmlFile
  | root (attribs : XmlAttrs) : XmlFile

/-- Embedding of the local `to_pct`: `None` when the attribute is absent,
`None` when `float(val)` raises (the surrounding `except` returns `None`),
otherwise the value scaled by 100. -/
def to_pct : Option (Option ℚ) → Option ℚ
  | none => none
  | some none => none
  | some (some v) => some (v * 100)

/-- Embedding of one fallback block of `parse_coverage_xml`: read the
`*-valid` and `*-covered` attributes with default `"0"`; if either is
present but non-numeric, `float` raises and the `except: pass` leaves the
percentage `None`; otherwise derive `100 * covered / valid` only when
`valid > 0`. -/
def deriveRate (valid covered : Option (Option ℚ)) : Option ℚ :=
  match valid.getD (some 0), covered.getD (some 0) with
  | some v, some c => if 0 < v then some (100 * (c / v)) else none
  | _, _ => none

/-- Embedding of `parse_coverage_xml`: `(None, None)` for a missing or
empty file; otherwise the direct `line-rate` / `branch-rate` attributes
scaled by 100, falling back to the derived-from-counts rate only when the
direct attribute gave `None`. -/
def parse_coverage_xml : XmlFile → Option ℚ × Option ℚ
  | .missingOrEmpty => (none, none)
  | .root a =>
      let line_pct :=
        match to_pct a.line_rate with
        | some q => some q
        | none => deriveRate a.lines_valid a.lines_covered
      let branch_pct :=
        match to_pct a.branch_rate with
        | some q => some q
        | none => deriveRate a.branches_valid a.branches_covered
      (line_pct, branch_pct)

/-! ### Prior-test collection (`collect_prior_tests_text`) -/

/-- A test file on disk: its basename and its text content. -/
structure PFile : Type where
  name : String
  content : String
  deriving DecidableEq, Repr

def PRIOR_TESTS_CHAR_BUDGET : Nat := 6000

/-- Rendering of Python's format `f-string` field `{idx:02d}`. -/
def pad2 (n : Nat) : String :=
  if n < 10 then ("0") ++ toString n else toString n

/-- Python's `str.endswith`: a suffix test on the character sequence. -/
def pyEndsWith (s sfx : String) : Bool :=
  sfx.data.isSuffixOf s.data

/-- Skip test of the loop: ignore the file that would be created this
iteration, matched by `f.name.endswith(f-string of idx:02d + ".py")`. -/
def iterFileSkip (current_iter_idx : Nat) (f : PFile) : Bool :=
  pyEndsWith f.name (pad2 current_iter_idx ++ ".py")

/-- Per-file text included in the prompt: a header comment naming the
file, then its content (`t = "# " + name + "\n" + read_text()`). -/
def fileText (f : PFile) : String :=
  "# " ++ f.name ++ "\n" ++ f.content

def truncMarker : String := "\n# ... (truncated)\n"

/-- Loop body of `collect_prior_tests_text`, with `total` the cumulative
character count of the texts accepted so far.  A file whose text no longer
fits is truncated to the remaining budget and marked — but only when more
than 200 characters remain — and the loop breaks either way. -/
def collectGo (current_iter_idx : Nat) (total : Nat) : List PFile → List String
  | [] => []
  | f :: fs =>
      if iterFileSkip current_iter_idx f then
        collectGo current_iter_idx total fs
      else
        let t := fileText f
        if PRIOR_TESTS_CHAR_BUDGET < total + t.length then
          let remaining := PRIOR_TESTS_CHAR_BUDGET - total
          if 200 < remaining then [(t.take remaining) ++ truncMarker] else []
        else
          t :: collectGo current_iter_idx (total + t.length) fs

/-- Embedding of `collect_prior_tests_text`: the glob-enumerated files (in
sorted order) are processed by the loop; no accepted text yields
`"None"`, otherwise the texts joined by a blank line. -/
def collect_prior_tests_text (current_iter_idx : Nat) (files : List PFile) : String :=
  let texts := collectGo current_iter_idx 0 files
  if texts.isEmpty then ("None") else String.intercalate ("\n\n") texts

/-- Specification helper: the per-file texts the loop may consider, in
order — every enumerated file except the current iteration's, rendered
with its header comment. -/
def nonSkippedTexts (current_iter_idx : Nat) (files : List PFile) : List String :=
  (files.filter fun f => !(iterFileSkip current_iter_idx f)).map fileText

/-- Specification helper: cumulative character count of a list of texts. -/
def sumLens (l : List String) : Nat :=
  (l.map String.length).sum

/-- Specification helper: final rendering of a list of kept texts. -/
def renderTexts (l : List String) : String :=
  if l.isEmpty then ("None") else String.intercalate ("\n\n") l

end Convergence

namespace HumanEvalHarness

/-! ### Coverage-JSON summaries

`humaneval_coverage_summary.py` (namespace `HCS`) and
`generate_summary.py` (namespace `GS`) each define a
`summarize_pytest_cov_style` over a `coverage.json` file entry.  A file
entry is `none` when the dict is empty/falsy (the `if not entry` guard);
`summary.get(key, 0)` is an `Option Int` read with default `0` (an absent
`summary` dict behaves as all keys absent); `entry.get("missing_branches",
[])` may find no key (outer `none`), a JSON `null` (inner `none`) or a
list of branch pairs. -/

structure CovSummaryFields : Type where
  num_statements : Option Int
  covered_lines : Option Int
  num_branches : Option Int
  covered_branches : Option Int
  deriving DecidableEq, Repr

structure CovFileEntry : Type where
  summary : CovSummaryFields
  missing_lines : Option (List Int)
  missing_branches : Option (Option (List (Int × Int)))
  deriving DecidableEq, Repr

/-- Python's `sorted` on a list of integers (insertion sort). -/
def insertSorted (x : Int) : List Int → List Int
  | [] => [x]
  | y :: ys => if x ≤ y then x :: y :: ys else y :: insertSorted x ys

def pySorted (l : List Int) : List Int :=
  l.foldr insertSorted []

/-- Return value of either `summarize_pytest_cov_style`:
`(stmts, miss, branch, brpart, line_percent, branch_percent,
missing_lines)`. -/
structure SummaryOut : Type where
  stmts : Int
  miss : Int
  branch : Int
  brpart : Int
  line_percent : ℚ
  branch_percent : ℚ
  missing_lines : List Int
  deriving DecidableEq, Repr

namespace HCS

/-- Embedding of `summarize_pytest_cov_style` from
`humaneval_coverage_summary.py`.  `covered_branches` is read from the
summary dict; `brpart = len(missing_branches) if missing_branches is not
None else 0`; percentages fall back to `0.0` (not an undefined marker)
when the denominator is not positive. -/
def summarize_pytest_cov_style : Option CovFileEntry → SummaryOut
  | none => ⟨0, 0, 0, 0, 0, 0, []⟩
  | some entry =>
      let stmts := entry.summary.num_statements.getD 0
      let covered_lines := entry.summary.covered_lines.getD 0
      let miss := max (stmts - covered_lines) 0
      let missing_lines := pySorted (entry.missing_lines.getD [])
      let num_branches := entry.summary.num_branches.getD 0
      let covered_branches := entry.summary.covered_branches.getD 0
      let brpart : Int :=
        match entry.missing_branches.getD (some []) with
        | none => 0
        | some mb => (mb.length : Int)
      let line_percent : ℚ :=
        if 0 < stmts then (covered_lines : ℚ) / (stmts : ℚ) * 100 else 0
      let branch_percent : ℚ :=
        if 0 < num_branches then
          (covered_branches : ℚ) / (num_branches : ℚ) * 100
        else 0
      ⟨stmts, miss, num_branches, brpart, line_percent, branch_percent,
       missing_lines⟩

end HCS

namespace GS

/-- Embedding of `summarize_pytest_cov_style` from `generate_summary.py`.
Here `missing_branches` is normalized with `or []`, `brpart` is its
length, and the covered branch count is derived as
`num_branches - brpart` instead of being read from the summary dict. -/
def summarize_pytest_cov_style : Option CovFileEntry → SummaryOut
  | none => ⟨0, 0, 0, 0, 0, 0, []⟩
  | some entry =>
      let stmts := entry.summary.num_statements.getD 0
      let covered_lines := entry.summary.covered_lines.getD 0
      let miss := max (stmts - covered_lines) 0
      let missing_lines := pySorted (entry.missing_lines.getD [])
      let num_branches := entry.summary.num_branches.getD 0
      let missing_branches : List (Int × Int) :=
        match entry.missing_branches.getD (some []) with
        | none => []
        | some mb => mb
      let brpart : Int := (missing_branches.length : Int)
      let line_percent : ℚ :=
        if 0 < stmts then (covered_lines : ℚ) / (stmts : ℚ) * 100 else 0
      let covered_branches := num_branches - brpart
      let branch_percent : ℚ :=
        if 0 < num_branches then
          (covered_branches : ℚ) / (num_branches : ℚ) * 100
        else 0
      ⟨stmts, miss, num_branches, brpart, line_percent, branch_percent,
       missing_lines⟩

end GS

/-- Consistency condition between the two `coverage.json` readings of the
covered-branch count: the summary's `covered_branches` agrees with
`num_branches - len(missing_branches)`.  Real `coverage.py` reports
satisfy it; an arbitrary entry need not. -/
@[reducible]
def branchCountsConsistent : Option CovFileEntry → Prop
  | none => True
  | some entry =>
      entry.summary.covered_branches.getD 0 =
        entry.summary.num_branches.getD 0 -
          (match entry.missing_branches.getD (some []) with
           | none => 0
           | some mb => (mb.length : Int))

/-! ### Missing-line range compression

`compress_line_ranges` is textually identical in
`humaneval_coverage_summary.py` and `generate_summary.py`; it is embedded
once.  `rangeStr` renders one closed run, as in the loop's
`ranges.append` calls. -/

def rangeStr (start prev : Int) : String :=
  if start = prev then toString start
  else toString start ++ "-" ++ toString prev

/-- Loop of `compress_line_ranges` over the tail, carrying the current
run's first and latest members. -/
def crlGo (start prev : Int) : List Int → List String
  | [] => [rangeStr start prev]
  | ln :: rest =>
      if ln = prev + 1 then crlGo start ln rest
      else rangeStr start prev :: crlGo ln ln rest

/-- Embedding of `compress_line_ranges`. -/
def compress_line_ranges : List Int → String
  | [] => ""
  | x :: xs => String.intercalate (", ") (crlGo x x xs)

/-- Specification helper: the integers of the closed interval
`p.1 .. p.2`. -/
def runToList (p : Int × Int) : List Int :=
  (List.range (p.2 + 1 - p.1).toNat).map fun i => p.1 + Int.ofNat i

/-- Specification helper: rendering of one maximal run, `"a-b"` for a run
`a..b` with `a < b` and `"a"` for a singleton. -/
def renderRun (p : Int × Int) : String :=
  if p.1 = p.2 then toString p.1
  else toString p.1 ++ "-" ++ toString p.2

/-- Specification predicate: `runs` is the decomposition of `l` into
maximal runs of consecutive integers — concatenating the intervals
restores `l`, every interval is nonempty, and consecutive intervals are
separated by a gap of at least two (so no two can be merged). -/
def isRunDecomp (l : List Int) (runs : List (Int × Int)) : Prop :=
  l = (runs.map runToList).flatten ∧
  (∀ p ∈ runs, p.1 ≤ p.2) ∧
  runs.Chain' fun p q => p.2 + 1 < q.1

/-! ### Concrete witness inputs -/

/-- Witness test body: five direct assertions on distinct lines, the
third carrying a message expression. -/
def exampleBody : List BStmt :=
  [.assertS (.name ("a1")) none 1,
   .assertS (.name ("a2")) none 2,
   .assertS (.name ("a3")) (some (.const (.str ("third")))) 3,
   .assertS (.name ("a4")) none 4,
   .assertS (.name ("a5")) none 5]

/-- Witness evaluation oracle: the second and fourth assertions are
falsy, the others truthy, none raises. -/
def exampleEv : Expr → Option Bool := fun e =>
  match e with
  | .name s => if s = "a2" ∨ s = "a4" then some false else some true
  | _ => some true

/-- Witness message oracle: string constants evaluate to themselves,
everything else to Python `None`. -/
def exampleMv : Expr → Option String := fun e =>
  match e with
  | .const (.str s) => some s
  | _ => none

/-- Witness test module: a helper routine with an assertion, the `check`
routine, and a module-level statement. -/
def examplePre : List TopStmt :=
  [.funcdef ("helper") ["x"] [.assertS (.name ("h1")) none 1]]

def examplePost : List TopStmt :=
  [.simple .pass]

/-- Witness coverage entry with `num_statements = 0`. -/
def entryZeroStmts : CovFileEntry :=
  ⟨⟨some 0, some 0, some 0, some 0⟩, some [], some (some [])⟩

/-- Witness coverage entry with positive statements none of which were
covered: a genuine 0% file. -/
def entryZeroCovered : CovFileEntry :=
  ⟨⟨some 4, some 0, some 0, some 0⟩, some [], some (some [])⟩

/-- Witness XML attribute set with no direct `line-rate` and
`lines-valid = 0`. -/
def attrsNoDirect : Convergence.XmlAttrs :=
  ⟨none, none, some (some 0), some (some 0), some (some 0), some (some 0)⟩

/-- Witness XML attribute set whose direct rate attributes disagree with
its count attributes: `line-rate = 1/2` but the counts give `1/10`, and
`branch-rate = 1/4` but the counts give `1`. -/
def attrsDisagree : Convergence.XmlAttrs :=
  ⟨some (some (1 / 2)), some (some (1 / 4)),
   some (some 10), some (some 1), some (some 8), some (some 8)⟩

/-- Witness coverage entry on which the two summaries disagree:
`covered_branches = 2` in the summary, but only one missing branch out of
four, so `num_branches - brpart = 3 ≠ 2`. -/
def entryInconsistent : CovFileEntry :=
  ⟨⟨some 10, some 10, some 4, some 2⟩, some [], some (some [(1, 2)])⟩

/-- Witness coverage entry with consistent branch counts:
`covered_branches = 3 = num_branches - len(missing_branches)`. -/
def entryConsistent : CovFileEntry :=
  ⟨⟨some 10, some 10, some 4, some 3⟩, some [], some (some [(1, 2)])⟩

end HumanEvalHarness

namespace HumanEvalHarness

/-- C8: when the executed namespace binds no `check` function, the
instrumented test executor returns `total = 0`, `passed = 0`, `failed = 1`
and exactly one synthetic failing record stating that `check` is
missing. -/
theorem C8_missing_check :
    run_check_and_count_asserts ModuleExec.noCheck =
      ⟨0, 0, 1, [⟨0, false, some ("Missing check(candidate) in test")⟩]⟩ := by
  rfl

/-- Unfolding of the executor on a present `check`: each returned count is
computed from the record list. -/
theorem run_withCheck_eq (steps : List Step) :
    run_check_and_count_asserts (.withCheck steps) =
      ⟨(runSteps steps).length,
       ((runSteps steps).filter fun r => r.ok).length,
       ((runSteps steps).filter fun r => r.ok = false).length,
       (runSteps steps).filter fun r => r.ok = false⟩ := rfl

/-- Running the hook calls of a body none of whose assertion evaluations
raises appends exactly one record per assertion, in source order. -/
theorem runSteps_stepsOf_eq (ev : Expr → Option Bool) (mv : Expr → Option String)
    (l : List (Expr × Option Expr × Int)) (h : ∀ a ∈ l, (ev a.1).isSome) :
    runSteps (l.map fun a =>
        match ev a.1 with
        | some v => Step.eval a.2.2 v (mv (a.2.1.getD (.const .pyNone)))
        | none => Step.raiseE ("assertion evaluation raised")) =
      l.map fun a =>
        ⟨a.2.2, (ev a.1).getD false, mv (a.2.1.getD (.const .pyNone))⟩ := by
  induction l with
  | nil => rfl
  | cons a rest ih =>
      have ha : (ev a.1).isSome := h a (List.mem_cons_self a rest)
      obtain ⟨v, hv⟩ := Option.isSome_iff_exists.mp ha
      simp only [List.map_cons, hv, runSteps, Option.getD_some]
      exact congrArg (List.cons _) (ih fun x hx => h x (List.mem_cons_of_mem a hx))

/-- C1: for a test body with `k` assert statements and a candidate under
which no assertion's evaluation raises, the instrumented execution yields
exactly `k` boolean-valued records in source order, `total = k`, `passed`
counts the truthy test expressions, `failed` counts the falsy ones, and a
false assertion never stops the evaluation of the later ones. -/
theorem C1_instrumented_execution (b : List BStmt) (ev : Expr → Option Bool)
    (mv : Expr → Option String)
    (h : ∀ a ∈ assertsOf b, (ev a.1).isSome) :
    runSteps (stepsOf b ev mv) =
      ((assertsOf b).map fun a =>
        ⟨a.2.2, (ev a.1).getD false, mv (a.2.1.getD (.const .pyNone))⟩) ∧
    (run_check_and_count_asserts (.withCheck (stepsOf b ev mv))).total =
      assertCount b ∧
    (run_check_and_count_asserts (.withCheck (stepsOf b ev mv))).passed =
      ((assertsOf b).filter fun a => ev a.1 = some true).length ∧
    (run_check_and_count_asserts (.withCheck (stepsOf b ev mv))).failed =
      ((assertsOf b).filter fun a => ev a.1 = some false).length := by
  have hrec : runSteps (stepsOf b ev mv) =
      (assertsOf b).map fun a =>
        (⟨a.2.2, (ev a.1).getD false, mv (a.2.1.getD (.const .pyNone))⟩ : Record) :=
    runSteps_stepsOf_eq ev mv (assertsOf b) h
  refine ⟨hrec, ?_, ?_, ?_⟩
  · show (run_check_and_count_asserts (.withCheck (stepsOf b ev mv))).total = _
    rw [run_withCheck_eq]
    show (runSteps (stepsOf b ev mv)).length = _
    rw [hrec, List.length_map]
    rfl
  · rw [run_withCheck_eq]
    show ((runSteps (stepsOf b ev mv)).filter fun r => r.ok).length = _
    rw [hrec, List.filter_map, List.length_map]
    congr 1
    apply List.filter_congr
    intro a _
    cases hv : ev a.1 with
    | none => simp [Function.comp, hv]
    | some v => cases v <;> simp [Function.comp, hv]
  · rw [run_withCheck_eq]
    show ((runSteps (stepsOf b ev mv)).filter fun r => r.ok = false).length = _
    rw [hrec, List.filter_map, List.length_map]
    congr 1
    apply List.filter_congr
    intro a ha
    obtain ⟨v, hv⟩ := Option.isSome_iff_exists.mp (h a ha)
    cases v <;> simp [Function.comp, hv]

/-- C1 witness: the five-assertion example with the second and fourth
false yields five records with `total = 5`, `passed = 3`, `failed = 2`. -/
theorem C1_witness :
    (∀ a ∈ assertsOf exampleBody, (exampleEv a.1).isSome) ∧
    runSteps (stepsOf exampleBody exampleEv exampleMv) =
      ((assertsOf exampleBody).map fun a =>
        ⟨a.2.2, (exampleEv a.1).getD false,
         exampleMv (a.2.1.getD (.const .pyNone))⟩) ∧
    (run_check_and_count_asserts
        (.withCheck (stepsOf exampleBody exampleEv exampleMv))).total = 5 ∧
    (run_check_and_count_asserts
        (.withCheck (stepsOf exampleBody exampleEv exampleMv))).passed = 3 ∧
    (run_check_and_count_asserts
        (.withCheck (stepsOf exampleBody exampleEv exampleMv))).failed = 2 :=
  have h : ∀ a ∈ assertsOf exampleBody, (exampleEv a.1).isSome := by decide
  ⟨h, (C1_instrumented_execution exampleBody exampleEv exampleMv h).1,
   by decide, by decide, by decide⟩

/-- Every record list splits between truthy and falsy outcomes: outcomes
are Python `bool`s, so the two filters partition the list. -/
theorem filter_ok_partition (l : List Record) :
    (l.filter fun r => r.ok).length +
      (l.filter fun r => r.ok = false).length = l.length := by
  have hfix : (fun r : Record => decide (r.ok = false)) = fun r : Record => !r.ok := by
    funext r
    cases r.ok <;> rfl
  rw [hfix]
  induction l with
  | nil => rfl
  | cons r rest ih =>
      cases hr : r.ok <;> simp [List.filter_cons, hr] <;> omega

/-- C4 (amended): for every execution that reaches the counting stage
(compilation succeeded and `check` was present), the returned counts
satisfy `passed + failed == total`, and `total` counts every record —
including the synthetic runtime-error record, whose outcome is the
boolean `False`.  (As stated the claim fails: error records are not
excluded from `total`, and the early-error returns `(0, 0, 1)` violate
the equation; see the counterexample.) -/
theorem C4_amended_count_invariant (steps : List Step) :
    (run_check_and_count_asserts (.withCheck steps)).passed +
        (run_check_and_count_asserts (.withCheck steps)).failed =
      (run_check_and_count_asserts (.withCheck steps)).total ∧
    (run_check_and_count_asserts (.withCheck steps)).total =
      (runSteps steps).length := by
  rw [run_withCheck_eq]
  exact ⟨filter_ok_partition (runSteps steps), rfl⟩

/-- C4 counterexample: a test-module import error returns
`(total, passed, failed) = (0, 0, 1)`, violating
`passed + failed == total`; and when `check` raises before any assertion,
the synthetic error record is counted in `total` (`total = 1` although
zero assertions were evaluated), so error records are not excluded from
`total`. -/
theorem C4_counterexample :
    (run_check_and_count_asserts (.importError ("SyntaxError: invalid syntax"))).passed +
        (run_check_and_count_asserts (.importError ("SyntaxError: invalid syntax"))).failed ≠
      (run_check_and_count_asserts (.importError ("SyntaxError: invalid syntax"))).total ∧
    (run_check_and_count_asserts
        (.withCheck [Step.raiseE ("ZeroDivisionError: division by zero")])).total = 1 ∧
    countEvalSteps [Step.raiseE ("ZeroDivisionError: division by zero")] = 0 := by
  refine ⟨by decide, rfl, rfl⟩

/-- C7 counterexample: a solution file that loads but lacks the
entry-point attribute is counted in the failure total — running the batch
over that single outcome leaves `grand_fail = 1`, not `0` as the claim
states. -/
theorem C7_counterexample :
    (main_counters [FileOutcome.missingEntry]).grand_fail = 1 ∧
    ¬(main_counters [FileOutcome.missingEntry]).grand_fail = 0 := by
  decide

/-- C7 (amended): a missing entry point prints a FAIL diagnostic and
increments `grand_fail` (leaving `grand_total` and `grand_pass`
unchanged); only bad-filename and unknown-identifier files are skipped
without touching any pass/fail counter. -/
theorem C7_amended_entry_point_fail (g : Counters) :
    mainStep g .missingEntry = ⟨g.grand_total, g.grand_pass, g.grand_fail + 1⟩ ∧
    mainStep g .notInDataset = g ∧
    mainStep g .badFilename = g :=
  ⟨rfl, rfl, rfl⟩

/-- Rewriting removes every assert statement of a body. -/
theorem assertsOf_map_visit (b : List BStmt) :
    assertsOf (b.map visit_Assert) = [] := by
  induction b with
  | nil => rfl
  | cons s rest ih =>
      cases s with
      | assertS t m ln =>
          rw [List.map_cons]
          show List.filterMap assertTriple (.exprS _ :: rest.map visit_Assert) = []
          rw [List.filterMap_cons_none rfl]
          exact ih
      | exprS e =>
          rw [List.map_cons]
          show List.filterMap assertTriple (.exprS e :: rest.map visit_Assert) = []
          rw [List.filterMap_cons_none rfl]
          exact ih
      | pass =>
          rw [List.map_cons]
          show List.filterMap assertTriple (.pass :: rest.map visit_Assert) = []
          rw [List.filterMap_cons_none rfl]
          exact ih

/-- Rewriting a body that contains no pre-existing recording-hook call
produces exactly one hook call per assert statement, in source order,
forwarding the original test expression, the original message expression
(with the `None` placeholder when absent) and the original line number. -/
theorem hookCalls_map_visit (b : List BStmt) (hclean : hookCalls b = []) :
    hookCalls (b.map visit_Assert) =
      (assertsOf b).map fun a => (a.1, a.2.1.getD (.const .pyNone), a.2.2) := by
  induction b with
  | nil => rfl
  | cons s rest ih =>
      rw [hookCalls, List.filterMap_cons] at hclean
      cases hh : hookOf s with
      | some v =>
          rw [hh] at hclean
          exact absurd hclean (List.cons_ne_nil _ _)
      | none =>
          rw [hh] at hclean
          have ih' := ih hclean
          cases s with
          | assertS t m ln =>
              have hcall : hookOf (.exprS (.call (.name ("__rec"))
                  [t, m.getD (.const .pyNone), .const (.int ln)])) =
                  some (t, m.getD (.const .pyNone), ln) := by
                simp [hookOf]
              simp only [List.map_cons, visit_Assert]
              show List.filterMap hookOf _ = _
              rw [List.filterMap_cons_some hcall]
              show _ = List.map _ (List.filterMap assertTriple (_ :: rest))
              rw [List.filterMap_cons_some (show assertTriple (.assertS t m ln) =
                some (t, m, ln) from rfl), List.map_cons]
              exact congrArg (List.cons _) ih'
          | exprS e =>
              rw [List.map_cons]
              show List.filterMap hookOf (.exprS e :: rest.map visit_Assert) = _
              rw [List.filterMap_cons_none hh]
              show _ = List.map _ (List.filterMap assertTriple (.exprS e :: rest))
              rw [List.filterMap_cons_none rfl]
              exact ih'
          | pass =>
              rw [List.map_cons]
              show List.filterMap hookOf (.pass :: rest.map visit_Assert) = _
              rw [List.filterMap_cons_none rfl]
              show _ = List.map _ (List.filterMap assertTriple (.pass :: rest))
              rw [List.filterMap_cons_none rfl]
              exact ih'

/-- C3: rewriting a module whose `check(candidate)` routine holds `k`
direct assert statements (and no pre-existing hook call) yields a module
identical except for `check`, whose new body holds zero assert statements
and exactly `k` recording-hook calls — each forwarding the original
unevaluated test expression, the original message expression or the
`None` placeholder, and the original line number, in source order — while
every top-level routine other than `check` is left untouched. -/
theorem C3_check_only_rewrite (pre post : List TopStmt) (p : List String)
    (b : List BStmt) (hcand : "candidate" ∈ p) (hclean : hookCalls b = []) :
    instrument_test_code (pre ++ TopStmt.funcdef ("check") p b :: post) =
      pre.map visit_FunctionDef ++
        TopStmt.funcdef ("check") p (b.map visit_Assert) ::
          post.map visit_FunctionDef ∧
    (∀ s : TopStmt, isCheckDef s = false → visit_FunctionDef s = s) ∧
    assertCount (b.map visit_Assert) = 0 ∧
    hookCalls (b.map visit_Assert) =
      ((assertsOf b).map fun a => (a.1, a.2.1.getD (.const .pyNone), a.2.2)) ∧
    (hookCalls (b.map visit_Assert)).length = assertCount b := by
  refine ⟨?_, ?_, ?_, hookCalls_map_visit b hclean, ?_⟩
  · simp only [instrument_test_code, List.map_append, List.map_cons]
    have hcheck : visit_FunctionDef (TopStmt.funcdef ("check") p b) =
        TopStmt.funcdef ("check") p (b.map visit_Assert) := by
      simp [visit_FunctionDef, hcand]
    rw [hcheck]
  · intro s hs
    cases s with
    | funcdef n pp bb =>
        simp only [isCheckDef, decide_eq_false_iff_not] at hs
        simp only [visit_FunctionDef, if_neg hs]
    | simple st => rfl
  · show (assertsOf (b.map visit_Assert)).length = 0
    rw [assertsOf_map_visit b]
    rfl
  · rw [hookCalls_map_visit b hclean, List.length_map]
    rfl

/-- C3 witness: a module with a helper routine (holding an assertion), a
five-assertion `check(candidate)` routine and a module-level statement. -/
theorem C3_witness :
    ("candidate") ∈ ["candidate"] ∧
    hookCalls exampleBody = [] ∧
    (instrument_test_code
        (examplePre ++ TopStmt.funcdef ("check") ["candidate"] exampleBody ::
          examplePost) =
      examplePre.map visit_FunctionDef ++
        TopStmt.funcdef ("check") ["candidate"] (exampleBody.map visit_Assert) ::
          examplePost.map visit_FunctionDef ∧
     (∀ s : TopStmt, isCheckDef s = false → visit_FunctionDef s = s) ∧
     assertCount (exampleBody.map visit_Assert) = 0 ∧
     hookCalls (exampleBody.map visit_Assert) =
       ((assertsOf exampleBody).map fun a =>
         (a.1, a.2.1.getD (.const .pyNone), a.2.2)) ∧
     (hookCalls (exampleBody.map visit_Assert)).length =
       assertCount exampleBody) :=
  ⟨by decide, rfl,
   C3_check_only_rewrite examplePre examplePost ["candidate"] exampleBody
     (by decide) rfl⟩

/-- C2 counterexample: on an entry with `num_statements = 0` the reader
`summarize_pytest_cov_style` returns the line percentage `0.0` — the very
value it returns for a genuine 0%-covered file with four statements — so
the undefined case is not preserved distinctly from 0%. -/
theorem C2_counterexample :
    entryZeroStmts.summary.num_statements = some 0 ∧
    (HCS.summarize_pytest_cov_style (some entryZeroStmts)).line_percent = 0 ∧
    0 < entryZeroCovered.summary.num_statements.getD 0 ∧
    (HCS.summarize_pytest_cov_style (some entryZeroCovered)).line_percent = 0 := by
  refine ⟨rfl, ?_, by decide, ?_⟩
  · simp [HCS.summarize_pytest_cov_style, entryZeroStmts]
  · norm_num [HCS.summarize_pytest_cov_style, entryZeroCovered]

/-- C2 (amended): `summarize_pytest_cov_style` maps every entry with
`num_statements = 0` to the line percentage `0.0` (its return type cannot
carry an undefined marker); the undefined-preserving behaviour the claim
describes holds only in `parse_coverage_xml`, which leaves the line
percentage `None` when no direct `line-rate` attribute is present and
`lines-valid` is zero. -/
theorem C2_amended_zero_statement_percent :
    (∀ ent : CovFileEntry, ent.summary.num_statements.getD 0 = 0 →
      (HCS.summarize_pytest_cov_style (some ent)).line_percent = 0) ∧
    (∀ a : Convergence.XmlAttrs, a.line_rate = none →
      a.lines_valid = some (some 0) →
      (Convergence.parse_coverage_xml (.root a)).1 = none) := by
  constructor
  · intro ent h
    simp [HCS.summarize_pytest_cov_style, h]
  · intro a h1 h2
    rcases hcov : a.lines_covered with _ | oc
    · simp [Convergence.parse_coverage_xml, Convergence.to_pct,
        Convergence.deriveRate, h1, h2, hcov]
    · rcases oc with _ | c <;>
        simp [Convergence.parse_coverage_xml, Convergence.to_pct,
          Convergence.deriveRate, h1, h2, hcov]

/-- C2 witness: the amended statement evaluated on the zero-statement
JSON entry and on the XML attribute set with no direct rate and zero
valid lines. -/
theorem C2_witness :
    (entryZeroStmts.summary.num_statements.getD 0 = 0 ∧
      (HCS.summarize_pytest_cov_style (some entryZeroStmts)).line_percent = 0) ∧
    (attrsNoDirect.line_rate = none ∧
      attrsNoDirect.lines_valid = some (some 0) ∧
      (Convergence.parse_coverage_xml (.root attrsNoDirect)).1 = none) :=
  ⟨⟨by decide, C2_amended_zero_statement_percent.1 entryZeroStmts (by decide)⟩,
   ⟨rfl, rfl, C2_amended_zero_statement_percent.2 attrsNoDirect rfl rfl⟩⟩

/-- C5: when the report's root element carries numeric `line-rate` and
`branch-rate` attributes, `parse_coverage_xml` returns exactly those
values scaled by 100, whatever the count attributes say — the
derived-from-counts fallback is never consulted. -/
theorem C5_direct_fields_win (a : Convergence.XmlAttrs) (lq bq : ℚ)
    (hl : a.line_rate = some (some lq)) (hb : a.branch_rate = some (some bq)) :
    Convergence.parse_coverage_xml (.root a) =
      (some (lq * 100), some (bq * 100)) := by
  simp [Convergence.parse_coverage_xml, Convergence.to_pct, hl, hb]

/-- C5 witness: a report whose direct rates (1/2, 1/4) disagree with its
counts (which would derive 10% and 100%); the direct fields win. -/
theorem C5_witness :
    attrsDisagree.line_rate = some (some (1 / 2)) ∧
    attrsDisagree.branch_rate = some (some (1 / 4)) ∧
    Convergence.deriveRate attrsDisagree.lines_valid
      attrsDisagree.lines_covered = some 10 ∧
    Convergence.deriveRate attrsDisagree.branches_valid
      attrsDisagree.branches_covered = some 100 ∧
    Convergence.parse_coverage_xml (.root attrsDisagree) =
      (some ((1 / 2 : ℚ) * 100), some ((1 / 4 : ℚ) * 100)) ∧
    (1 / 2 : ℚ) * 100 ≠ 10 ∧ (1 / 4 : ℚ) * 100 ≠ 100 :=
  ⟨rfl, rfl, by norm_num [Convergence.deriveRate, attrsDisagree],
   by norm_num [Convergence.deriveRate, attrsDisagree],
   C5_direct_fields_win attrsDisagree (1 / 2) (1 / 4) rfl rfl,
   by norm_num, by norm_num⟩

/-- C10 counterexample: on an entry whose summary reports 2 covered
branches out of 4 but lists only one missing branch, the two
`summarize_pytest_cov_style` implementations disagree: 50% versus 75%
branch coverage. -/
theorem C10_counterexample :
    (HCS.summarize_pytest_cov_style (some entryInconsistent)).branch_percent = 50 ∧
    (GS.summarize_pytest_cov_style (some entryInconsistent)).branch_percent = 75 ∧
    HCS.summarize_pytest_cov_style (some entryInconsistent) ≠
      GS.summarize_pytest_cov_style (some entryInconsistent) := by
  have h1 : (HCS.summarize_pytest_cov_style (some entryInconsistent)).branch_percent = 50 := by
    norm_num [HCS.summarize_pytest_cov_style, entryInconsistent]
  have h2 : (GS.summarize_pytest_cov_style (some entryInconsistent)).branch_percent = 75 := by
    norm_num [GS.summarize_pytest_cov_style, entryInconsistent]
  refine ⟨h1, h2, fun h => ?_⟩
  rw [h, h2] at h1
  norm_num at h1

/-- C10 (amended): the two `summarize_pytest_cov_style` implementations
agree on `stmts`, `miss`, `branch`, `brpart`, `line_percent` and
`missing_lines` for every entry, and return the same full 7-tuple
whenever the summary's `covered_branches` is consistent with
`num_branches - len(missing_branches)`, and also whenever `num_branches`
is not positive (both branch percentages then fall back to `0.0`); in
general the branch percentages differ (one reads the covered count from
the summary, the other derives it from the missing-branch list). -/
theorem C10_amended_summaries_agree (e : Option CovFileEntry) :
    (HCS.summarize_pytest_cov_style e).stmts =
      (GS.summarize_pytest_cov_style e).stmts ∧
    (HCS.summarize_pytest_cov_style e).miss =
      (GS.summarize_pytest_cov_style e).miss ∧
    (HCS.summarize_pytest_cov_style e).branch =
      (GS.summarize_pytest_cov_style e).branch ∧
    (HCS.summarize_pytest_cov_style e).brpart =
      (GS.summarize_pytest_cov_style e).brpart ∧
    (HCS.summarize_pytest_cov_style e).line_percent =
      (GS.summarize_pytest_cov_style e).line_percent ∧
    (HCS.summarize_pytest_cov_style e).missing_lines =
      (GS.summarize_pytest_cov_style e).missing_lines ∧
    (branchCountsConsistent e →
      HCS.summarize_pytest_cov_style e = GS.summarize_pytest_cov_style e) ∧
    ((GS.summarize_pytest_cov_style e).branch ≤ 0 →
      HCS.summarize_pytest_cov_style e = GS.summarize_pytest_cov_style e) := by
  cases e with
  | none => exact ⟨rfl, rfl, rfl, rfl, rfl, rfl, fun _ => rfl, fun _ => rfl⟩
  | some ent =>
      rcases ent with ⟨⟨ns, cl, nb, cb⟩, ml, mb⟩
      rcases mb with _ | omb
      · refine ⟨rfl, rfl, rfl, rfl, rfl, rfl, fun hcons => ?_, fun hnb => ?_⟩
        · simp only [branchCountsConsistent, Option.getD_none, Option.getD_some]
            at hcons
          simp [HCS.summarize_pytest_cov_style, GS.summarize_pytest_cov_style,
            SummaryOut.mk.injEq, hcons]
        · have hnb' : nb.getD 0 ≤ 0 := hnb
          have hlt : ¬(0 < nb.getD 0) := by omega
          simp [HCS.summarize_pytest_cov_style, GS.summarize_pytest_cov_style,
            SummaryOut.mk.injEq, hlt]
      · rcases omb with _ | mbl
        · refine ⟨rfl, rfl, rfl, rfl, rfl, rfl, fun hcons => ?_, fun hnb => ?_⟩
          · simp only [branchCountsConsistent, Option.getD_none, Option.getD_some]
              at hcons
            simp [HCS.summarize_pytest_cov_style, GS.summarize_pytest_cov_style,
              SummaryOut.mk.injEq, hcons]
          · have hnb' : nb.getD 0 ≤ 0 := hnb
            have hlt : ¬(0 < nb.getD 0) := by omega
            simp [HCS.summarize_pytest_cov_style, GS.summarize_pytest_cov_style,
              SummaryOut.mk.injEq, hlt]
        · refine ⟨rfl, rfl, rfl, rfl, rfl, rfl, fun hcons => ?_, fun hnb => ?_⟩
          · simp only [branchCountsConsistent, Option.getD_none, Option.getD_some]
              at hcons
            simp [HCS.summarize_pytest_cov_style, GS.summarize_pytest_cov_style,
              SummaryOut.mk.injEq, hcons]
          · have hnb' : nb.getD 0 ≤ 0 := hnb
            have hlt : ¬(0 < nb.getD 0) := by omega
            simp [HCS.summarize_pytest_cov_style, GS.summarize_pytest_cov_style,
              SummaryOut.mk.injEq, hlt]

/-- C10 witness: on an entry with consistent branch counts
(3 covered = 4 branches minus 1 missing) the two implementations return
the same 7-tuple. -/
theorem C10_witness :
    branchCountsConsistent (some entryConsistent) ∧
    HCS.summarize_pytest_cov_style (some entryConsistent) =
      GS.summarize_pytest_cov_style (some entryConsistent) :=
  ⟨by decide,
   (C10_amended_summaries_agree (some entryConsistent)).2.2.2.2.2.2.1 (by decide)⟩

/-- Interval of a single point. -/
theorem runToList_self (a : Int) : runToList (a, a) = [a] := by
  have h : (a + 1 - a).toNat = 1 := by omega
  show (List.range ((a + 1 - a).toNat)).map (fun i => a + Int.ofNat i) = [a]
  rw [h, show List.range 1 = [0] from rfl, List.map_cons, List.map_nil]
  norm_num

/-- Extending an interval one past its right end appends that point. -/
theorem runToList_extend (a b : Int) (hab : a ≤ b + 1) :
    runToList (a, b + 1) = runToList (a, b) ++ [b + 1] := by
  have h1 : (b + 1 + 1 - a).toNat = (b + 1 - a).toNat + 1 := by omega
  show (List.range ((b + 1 + 1 - a).toNat)).map (fun i => a + Int.ofNat i) =
    (List.range ((b + 1 - a).toNat)).map (fun i => a + Int.ofNat i) ++ [b + 1]
  rw [h1, List.range_succ, List.map_append, List.map_cons, List.map_nil]
  have h2 : ((b + 1 - a).toNat : Int) = b + 1 - a :=
    Int.toNat_of_nonneg (by omega)
  congr 1
  congr 1
  rw [show Int.ofNat ((b + 1 - a).toNat) = ((b + 1 - a).toNat : Int) from rfl, h2]
  omega

/-- Loop invariant of `compress_line_ranges`: starting from an open run
`start..prev` and a strictly ascending remainder, the loop renders the
maximal-run decomposition of `runToList (start, prev) ++ rest`, whose
first run begins at `start`. -/
theorem crlGo_spec (rest : List Int) : ∀ start prev : Int, start ≤ prev →
    List.Chain' (· < ·) (prev :: rest) →
    ∃ runs : List (Int × Int),
      (runs.map runToList).flatten = runToList (start, prev) ++ rest ∧
      (∀ p ∈ runs, p.1 ≤ p.2) ∧
      runs.Chain' (fun p q => p.2 + 1 < q.1) ∧
      crlGo start prev rest = runs.map renderRun ∧
      ∃ e rs, runs = (start, e) :: rs := by
  induction rest with
  | nil =>
      intro start prev hsp _
      refine ⟨[(start, prev)], by simp, ?_, by simp, rfl, ⟨prev, [], rfl⟩⟩
      intro p hp
      rw [List.mem_singleton] at hp
      rw [hp]
      exact hsp
  | cons y ys ih =>
      intro start prev hsp hchain
      have hpy : prev < y := (List.chain'_cons.mp hchain).1
      have hchain' : List.Chain' (· < ·) (y :: ys) := (List.chain'_cons.mp hchain).2
      by_cases hy : y = prev + 1
      · subst hy
        obtain ⟨runs, hflat, hle, hgap, hcrl, e, rs, hhead⟩ :=
          ih start (prev + 1) (by omega) hchain'
        refine ⟨runs, ?_, hle, hgap, ?_, ⟨e, rs, hhead⟩⟩
        · rw [hflat, runToList_extend start prev (by omega), List.append_assoc]
          rfl
        · rw [crlGo, if_pos rfl]
          exact hcrl
      · have hgapy : prev + 1 < y := by omega
        obtain ⟨runs, hflat, hle, hgap, hcrl, e, rs, hhead⟩ :=
          ih y y le_rfl hchain'
        refine ⟨(start, prev) :: runs, ?_, ?_, ?_, ?_, ⟨prev, runs, rfl⟩⟩
        · rw [List.map_cons, List.flatten_cons, hflat, runToList_self]
          rfl
        · intro p hp
          rcases List.mem_cons.mp hp with hp | hp
          · rw [hp]; exact hsp
          · exact hle p hp
        · rw [hhead] at hgap ⊢
          exact List.chain'_cons.mpr ⟨hgapy, hgap⟩
        · rw [crlGo, if_neg hy, hcrl]
          rfl

/-- C9: for every strictly ascending list of line numbers,
`compress_line_ranges` renders its maximal-run decomposition — each
maximal run `a..b` of consecutive numbers as `"a-b"`, each singleton as
`"a"` — joined by a comma and space. -/
theorem C9_compress_ranges (l : List Int) (h : List.Chain' (· < ·) l) :
    ∃ runs : List (Int × Int), isRunDecomp l runs ∧
      compress_line_ranges l =
        String.intercalate (", ") (runs.map renderRun) := by
  cases l with
  | nil => exact ⟨[], ⟨rfl, by simp, by simp⟩, rfl⟩
  | cons x xs =>
      obtain ⟨runs, hflat, hle, hgap, hcrl, _⟩ := crlGo_spec xs x x le_rfl h
      refine ⟨runs, ⟨?_, hle, hgap⟩, ?_⟩
      · rw [hflat, runToList_self]
        rfl
      · rw [compress_line_ranges, hcrl]

/-- C9 witness: the claim's inputs `[2,3,4,7,8,10]`, `[]` and `[5]`:
the first yields the decomposition rendering and the string
`"2-4, 7-8, 10"`, the empty list yields `""`, and `[5]` yields `"5"`. -/
theorem C9_witness :
    List.Chain' (· < ·) [(2 : Int), 3, 4, 7, 8, 10] ∧
    (∃ runs : List (Int × Int),
      isRunDecomp [(2 : Int), 3, 4, 7, 8, 10] runs ∧
      compress_line_ranges [(2 : Int), 3, 4, 7, 8, 10] =
        String.intercalate (", ") (runs.map renderRun)) ∧
    compress_line_ranges [(2 : Int), 3, 4, 7, 8, 10] = "2-4, 7-8, 10" ∧
    compress_line_ranges [] = "" ∧
    compress_line_ranges [(5 : Int)] = "5" :=
  have hch : List.Chain' (· < ·) [(2 : Int), 3, 4, 7, 8, 10] := by
    norm_num [List.chain'_cons]
  ⟨hch, C9_compress_ranges _ hch, by rfl, rfl, by rfl⟩

end HumanEvalHarness

namespace Convergence

/-- Loop invariant of `collect_prior_tests_text`: starting with `total`
characters already accepted, the loop keeps a whole-file prefix of the
non-skipped texts within the budget; at the first text that would exceed
it, the loop either appends that text truncated to the remaining budget
with the truncation marker (when more than 200 characters remain) or
stops before it, dropping it and all later files. -/
theorem collectGo_spec (cur : Nat) (files : List PFile) :
    ∀ total : Nat, total ≤ PRIOR_TESTS_CHAR_BUDGET →
    ∃ n, n ≤ (nonSkippedTexts cur files).length ∧
      total + sumLens ((nonSkippedTexts cur files).take n) ≤
        PRIOR_TESTS_CHAR_BUDGET ∧
      ((n = (nonSkippedTexts cur files).length ∧
          collectGo cur total files = nonSkippedTexts cur files) ∨
       (∃ t rest, (nonSkippedTexts cur files).drop n = t :: rest ∧
          PRIOR_TESTS_CHAR_BUDGET <
            total + sumLens ((nonSkippedTexts cur files).take n) + t.length ∧
          collectGo cur total files =
            (nonSkippedTexts cur files).take n ++
              (if 200 < PRIOR_TESTS_CHAR_BUDGET -
                    (total + sumLens ((nonSkippedTexts cur files).take n))
               then [(t.take (PRIOR_TESTS_CHAR_BUDGET -
                      (total + sumLens ((nonSkippedTexts cur files).take n)))) ++
                  truncMarker]
               else []))) := by
  induction files with
  | nil =>
      intro total htot
      exact ⟨0, Nat.le_refl 0, by simpa [nonSkippedTexts, sumLens] using htot,
        Or.inl ⟨rfl, rfl⟩⟩
  | cons f fs ih =>
      intro total htot
      by_cases hskip : iterFileSkip cur f = true
      · have hns : nonSkippedTexts cur (f :: fs) = nonSkippedTexts cur fs := by
          simp [nonSkippedTexts, List.filter_cons, hskip]
        have hcg : collectGo cur total (f :: fs) = collectGo cur total fs := by
          simp [collectGo, hskip]
        rw [hns, hcg]
        exact ih total htot
      · have hns : nonSkippedTexts cur (f :: fs) =
            fileText f :: nonSkippedTexts cur fs := by
          simp [nonSkippedTexts, List.filter_cons, hskip]
        rw [hns]
        by_cases hover : PRIOR_TESTS_CHAR_BUDGET < total + (fileText f).length
        · refine ⟨0, Nat.zero_le _, by simpa [sumLens] using htot,
            Or.inr ⟨fileText f, nonSkippedTexts cur fs, rfl, ?_, ?_⟩⟩
          · simpa [sumLens] using hover
          · have hstep : collectGo cur total (f :: fs) =
                if 200 < PRIOR_TESTS_CHAR_BUDGET - total
                then [((fileText f).take (PRIOR_TESTS_CHAR_BUDGET - total)) ++
                    truncMarker]
                else [] := by
              simp [collectGo, hskip, hover]
            rw [hstep]
            simp [sumLens]
        · have hnover : total + (fileText f).length ≤ PRIOR_TESTS_CHAR_BUDGET := by
            omega
          obtain ⟨n, h1, h2, h3⟩ := ih (total + (fileText f).length) hnover
          have hstep : collectGo cur total (f :: fs) =
              fileText f :: collectGo cur (total + (fileText f).length) fs := by
            simp [collectGo, hskip, hover]
          have hsum : ∀ m : Nat,
              sumLens ((fileText f :: nonSkippedTexts cur fs).take (m + 1)) =
                (fileText f).length +
                  sumLens ((nonSkippedTexts cur fs).take m) := by
            intro m
            simp [sumLens]
          refine ⟨n + 1, ?_, ?_, ?_⟩
          · simpa using h1
          · rw [hsum n]
            omega
          · rcases h3 with ⟨hn, hcg⟩ | ⟨t, rest, hdrop, hbud, hcg⟩
            · left
              constructor
              · simp [hn]
              · rw [hstep, hcg]
            · right
              refine ⟨t, rest, ?_, ?_, ?_⟩
              · simpa using hdrop
              · rw [hsum n]
                omega
              · rw [hstep, hcg, List.take_succ_cons, List.cons_append]
                have hcond : PRIOR_TESTS_CHAR_BUDGET -
                    (total + (fileText f).length +
                      sumLens ((nonSkippedTexts cur fs).take n)) =
                    PRIOR_TESTS_CHAR_BUDGET -
                      (total +
                        sumLens ((fileText f :: nonSkippedTexts cur fs).take (n + 1))) := by
                  rw [hsum n]
                  omega
                rw [hcond, List.take_succ_cons]

/-- C6: for every round, `collect_prior_tests_text` over the enumerated
prior test files keeps whole files — each prefixed by its header comment —
while the cumulative character count stays within the 6000-character
budget; the first file that would exceed the budget is included truncated
with the truncation marker exactly when more than 200 characters of
budget remain, and is otherwise dropped together with every later file;
when nothing is kept (in particular in round 1, with no prior files) the
result is `"None"`, and otherwise the kept texts joined by blank lines. -/
theorem C6_collect_prior_tests (cur : Nat) (files : List PFile) :
    ∃ n, n ≤ (nonSkippedTexts cur files).length ∧
      sumLens ((nonSkippedTexts cur files).take n) ≤ PRIOR_TESTS_CHAR_BUDGET ∧
      ((n = (nonSkippedTexts cur files).length ∧
          collect_prior_tests_text cur files =
            renderTexts (nonSkippedTexts cur files)) ∨
       (∃ t rest, (nonSkippedTexts cur files).drop n = t :: rest ∧
          PRIOR_TESTS_CHAR_BUDGET <
            sumLens ((nonSkippedTexts cur files).take n) + t.length ∧
          collect_prior_tests_text cur files =
            renderTexts ((nonSkippedTexts cur files).take n ++
              (if 200 < PRIOR_TESTS_CHAR_BUDGET -
                    sumLens ((nonSkippedTexts cur files).take n)
               then [(t.take (PRIOR_TESTS_CHAR_BUDGET -
                      sumLens ((nonSkippedTexts cur files).take n))) ++
                  truncMarker]
               else [])))) ∧
      (nonSkippedTexts cur files = [] →
        collect_prior_tests_text cur files = "None") := by
  have hcollect : collect_prior_tests_text cur files =
      renderTexts (collectGo cur 0 files) := rfl
  obtain ⟨n, h1, h2, h3⟩ :=
    collectGo_spec cur files 0 (Nat.zero_le _)
  refine ⟨n, h1, by simpa using h2, ?_, ?_⟩
  · rcases h3 with ⟨hn, hcg⟩ | ⟨t, rest, hdrop, hbud, hcg⟩
    · exact Or.inl ⟨hn, by rw [hcollect, hcg]⟩
    · refine Or.inr ⟨t, rest, hdrop, by simpa using hbud, ?_⟩
      rw [hcollect, hcg]
      norm_num
  · intro hns
    rcases h3 with ⟨hn, hcg⟩ | ⟨t, rest, hdrop, hbud, hcg⟩
    · rw [hcollect, hcg, hns]
      rfl
    · rw [hns] at hdrop
      simp at hdrop

/-- C6 witness: round 1 with no prior test files yields `"None"`, and a
later round with one small prior file includes it verbatim — header
comment plus content, no truncation marker. -/
theorem C6_witness :
    collect_prior_tests_text 1 [] = "None" ∧
    collect_prior_tests_text 2
        [⟨"test_humaneval_106_llm_iter_01.py", "assert f(1) == 1"⟩] =
      "# test_humaneval_106_llm_iter_01.py\nassert f(1) == 1" := by
  constructor
  · obtain ⟨n, h1, h2, h3, h4⟩ := C6_collect_prior_tests 1 []
    exact h4 rfl
  · decide

end Convergence
